import Mathlib

/-!
Verification of the access-control decision model, CRUD controllers and
rate limiter of the florka-saas-platform backend (Express + Prisma).

The definitions below are a shallow embedding of:
  - backend/src/middleware auth file: verifyToken, optionalAuth, rateLimit
  - backend/src/controllers/projectController.ts
  - backend/src/controllers/authController.ts (register, getProfile)
The persistence layer (Prisma) is modelled as a list of records; the
unique-id lookups of the source become List.find? on the id field, and
delete by unique id becomes a filter that removes the record with that id.
Roles and statuses are strings in the Prisma schema (String fields with
defaults), so they stay strings here.
-/

namespace Florka

/-- The decoded JWT payload attached to a request by the middleware:
the source interface JWTPayload restricted to what the controllers read
(req.user = \x7b userId, role \x7d). -/
structure ReqUser where
  userId : String
  role : String
deriving Repr, DecidableEq

/-- The record selected by verifyToken and optionalAuth from the
user or adminUser table: select \x7b id, status, role \x7d. -/
structure UserRecord where
  id : String
  role : String
  status : String
deriving Repr, DecidableEq

/-- A user row as the auth controller reads and writes it. -/
structure DbUser where
  id : String
  email : String
  passwordHash : String
  firstName : Option String
  lastName : Option String
  role : String
  status : String
deriving Repr, DecidableEq

/-- Projection of a full user row to the fields the middleware selects. -/
def DbUser.record (u : DbUser) : UserRecord :=
  { id := u.id, role := u.role, status := u.status }

/-- A project row (backend/prisma schema, fields used by the controllers). -/
structure Project where
  id : String
  title : String
  description : Option String
  content : Option String
  category : Option String
  tags : List String
  isPublic : Bool
  status : String
  userId : String
deriving Repr, DecidableEq

/-- The check spelled [ADMIN, SUPER_ADMIN].includes(role) in the source. -/
def isAdminRole (role : String) : Bool :=
  role == "ADMIN" || role == "SUPER_ADMIN"

/-- The user lookup in verifyToken / optionalAuth: admin roles are looked
up in the adminUser table, all other roles in the user table. -/
def lookupUser (adminUsers users : List UserRecord) (decoded : ReqUser) :
    Option UserRecord :=
  if isAdminRole decoded.role then
    adminUsers.find? (fun u => u.id == decoded.userId)
  else
    users.find? (fun u => u.id == decoded.userId)

/-- verifyToken (middleware), after the JWT signature step: the decoded
payload is checked against the credential store; a missing user is a 401
and a status other than ACTIVE / PENDING_VERIFICATION is a 403, otherwise
req.user is set to the payload fields. -/
def verifyToken (adminUsers users : List UserRecord) (decoded : ReqUser) :
    Except (Nat × String) ReqUser :=
  match lookupUser adminUsers users decoded with
  | none => .error (401, "User no longer exists")
  | some u =>
      if u.status != "ACTIVE" && u.status != "PENDING_VERIFICATION" then
        .error (403, "User account is not active")
      else
        .ok { userId := decoded.userId, role := decoded.role }

/-- optionalAuth (middleware): same lookup as verifyToken but never fails;
req.user is set only when the user exists with an accepted status.
The input none stands for a request with no (or an unverifiable) token. -/
def optionalAuth (adminUsers users : List UserRecord)
    (decoded : Option ReqUser) : Option ReqUser :=
  match decoded with
  | none => none
  | some d =>
      match lookupUser adminUsers users d with
      | none => none
      | some u =>
          if u.status == "ACTIVE" || u.status == "PENDING_VERIFICATION" then
            some { userId := d.userId, role := d.role }
          else
            none

/-- JavaScript x || d for an already-parsed integer query parameter:
none stands for parseInt returning NaN (absent or non-numeric), and 0 is
falsy, so both fall back to the default. -/
def jsOrInt (v : Option Int) (d : Int) : Int :=
  match v with
  | none => d
  | some n => if n = 0 then d else n

/-- JavaScript truthiness for an optional string query parameter:
if (s) treats an absent parameter and the empty string as false. -/
def strTruthy (v : Option String) : Option String :=
  match v with
  | none => none
  | some s => if s = "" then none else some s

/-- Whether the character list sub is a prefix of the character list hay. -/
def charsPrefix : List Char → List Char → Bool
  | [], _ => true
  | _ :: _, [] => false
  | a :: as, b :: bs => a == b && charsPrefix as bs

/-- Whether sub occurs as a contiguous run inside hay. -/
def charsContains : List Char → List Char → Bool
  | [], sub => charsPrefix sub []
  | h :: t, sub => charsPrefix sub (h :: t) || charsContains t sub

/-- Prisma contains with mode insensitive: case-insensitive substring,
both sides lowered character by character. -/
def containsCI (s sub : String) : Bool :=
  charsContains (s.toList.map Char.toLower) (sub.toList.map Char.toLower)

/-- The query parameters of GET /projects as the controller reads them:
page and limit after parseInt (none = NaN), search/category/status raw. -/
structure ListQuery where
  page : Option Int
  limit : Option Int
  search : Option String
  category : Option String
  status : Option String
deriving Repr, DecidableEq

/-- The where clause built by getAllProjects, as a predicate on a row.
Anonymous requests are pinned to isPublic and status PUBLISHED; an
authenticated request sees public published rows OR its own rows. The
search filter is an OR over title/description (a null description does
not match), category is an equality, and the status filter is applied
only when the request is authenticated (the source guards it with
isAuthenticated), all conjoined as Prisma conjoins where fields. -/
def matchesWhere (reqUser : Option ReqUser) (q : ListQuery) (p : Project) :
    Bool :=
  let accessOk : Bool :=
    match reqUser with
    | none => p.isPublic && p.status == "PUBLISHED"
    | some u => (p.isPublic && p.status == "PUBLISHED") || p.userId == u.userId
  let searchOk : Bool :=
    match strTruthy q.search with
    | none => true
    | some s =>
        containsCI p.title s ||
          (match p.description with
           | some d => containsCI d s
           | none => false)
  let categoryOk : Bool :=
    match strTruthy q.category with
    | none => true
    | some c => p.category == some c
  let statusOk : Bool :=
    match reqUser, strTruthy q.status with
    | some _, some st => p.status == st
    | _, _ => true
  accessOk && searchOk && categoryOk && statusOk

/-- The response of getAllProjects: the rows after skip/take pagination,
together with the pagination echo (page, limit, total row count). -/
structure ListResult where
  projects : List Project
  page : Int
  limit : Int
  total : Nat
deriving Repr, DecidableEq

/-- getAllProjects (projectController): page and limit default to 1 and 10
through JavaScript or-fallback, skip = (page - 1) * limit, and the rows
are the where-filtered table window [skip, skip + limit). Negative skip
or take would be rejected by the persistence layer and are outside the
behaviour the claims exercise; toNat restricts to the nonnegative case. -/
def getAllProjects (db : List Project) (reqUser : Option ReqUser)
    (q : ListQuery) : ListResult :=
  let page := jsOrInt q.page 1
  let limit := jsOrInt q.limit 10
  let skip := (page - 1) * limit
  let filtered := db.filter (matchesWhere reqUser q)
  { projects := (filtered.drop skip.toNat).take limit.toNat
    page := page
    limit := limit
    total := filtered.length }

/-- Math.ceil(total / limit) for a positive integer limit, the pages
field of the pagination echo. -/
def pagesCeil (total l : Nat) : Nat :=
  (total + l - 1) / l

/-- getProjectById (projectController): 404 when the id is absent, then
the inline access decision: owner, admin role, or public and published;
otherwise 403. reqUser none is an anonymous request (optionalAuth route). -/
def getProjectById (db : List Project) (reqUser : Option ReqUser)
    (id : String) : Except (Nat × String) Project :=
  match db.find? (fun p => p.id == id) with
  | none => .error (404, "Project not found")
  | some project =>
      let isOwner : Bool :=
        match reqUser with
        | some u => u.userId == project.userId
        | none => false
      let isAdmin : Bool :=
        match reqUser with
        | some u => isAdminRole u.role
        | none => false
      let isPublicAndPublished : Bool :=
        project.isPublic && project.status == "PUBLISHED"
      if !isOwner && !isAdmin && !isPublicAndPublished then
        .error (403, "Access denied")
      else
        .ok project

/-- The body accepted by createProjectSchema (zod): unknown keys such as
an owner id are stripped, optional fields may be absent; isPublic defaults
to false and status to DRAFT. -/
structure CreateInput where
  title : String
  description : Option String
  content : Option String
  category : Option String
  tags : Option (List String)
  isPublic : Option Bool
  status : Option String
deriving Repr, DecidableEq

/-- The zod checks of createProjectSchema that are not shape-level:
title length in [1, 200] and status drawn from the project status enum. -/
def validCreate (input : CreateInput) : Bool :=
  decide (1 ≤ input.title.length) && decide (input.title.length ≤ 200) &&
    (match input.status with
     | none => true
     | some s => s == "DRAFT" || s == "PUBLISHED" || s == "ARCHIVED")

/-- The body accepted by updateProjectSchema (zod): every field optional,
and no owner field exists in the schema, so the ORM update can never touch
userId. Unknown keys in the request body are stripped by zod. -/
structure UpdateInput where
  title : Option String
  description : Option String
  content : Option String
  category : Option String
  tags : Option (List String)
  isPublic : Option Bool
  status : Option String
deriving Repr, DecidableEq

/-- The zod checks of updateProjectSchema beyond shape: when present,
title length in [1, 200] and status drawn from the enum. -/
def validUpdate (input : UpdateInput) : Bool :=
  (match input.title with
   | none => true
   | some t => decide (1 ≤ t.length) && decide (t.length ≤ 200)) &&
  (match input.status with
   | none => true
   | some s => s == "DRAFT" || s == "PUBLISHED" || s == "ARCHIVED")

/-- prisma.project.update data semantics: each field present in the
validated body overwrites the row field; absent fields keep the row
values; id, userId and creation data are not in the schema and persist. -/
def applyUpdate (p : Project) (input : UpdateInput) : Project :=
  { p with
    title := input.title.getD p.title
    description :=
      match input.description with
      | some d => some d
      | none => p.description
    content :=
      match input.content with
      | some c => some c
      | none => p.content
    category :=
      match input.category with
      | some c => some c
      | none => p.category
    tags := input.tags.getD p.tags
    isPublic := input.isPublic.getD p.isPublic
    status := input.status.getD p.status }

/-- createProject (projectController): validate, then insert a row owned
by the authenticated user; newId is the id generated by the store. -/
def createProject (db : List Project) (u : ReqUser) (input : CreateInput)
    (newId : String) : Except (Nat × String) (Project × List Project) :=
  if validCreate input = false then
    .error (400, "Validation failed")
  else
    let project : Project :=
      { id := newId
        title := input.title
        description := input.description
        content := input.content
        category := input.category
        tags := input.tags.getD []
        isPublic := input.isPublic.getD false
        status := input.status.getD "DRAFT"
        userId := u.userId }
    .ok (project, db ++ [project])

/-- updateProject (projectController): validate, 404 on a missing id,
then the inline permission check isOwner or isAdmin, then the ORM update
of the row with that id. Returns the updated row and the new table. -/
def updateProject (db : List Project) (u : ReqUser) (id : String)
    (input : UpdateInput) : Except (Nat × String) (Project × List Project) :=
  if validUpdate input = false then
    .error (400, "Validation failed")
  else
    match db.find? (fun p => p.id == id) with
    | none => .error (404, "Project not found")
    | some existing =>
        let isOwner : Bool := u.userId == existing.userId
        let isAdmin : Bool := isAdminRole u.role
        if !isOwner && !isAdmin then
          .error (403, "Access denied")
        else
          .ok (applyUpdate existing input,
            db.map (fun p => if p.id == id then applyUpdate p input else p))

/-- deleteProject (projectController): 404 on a missing id, then the
inline permission check isOwner or isAdmin, then delete by unique id
(the table keeps every row whose id differs). -/
def deleteProject (db : List Project) (u : ReqUser) (id : String) :
    Except (Nat × String) (List Project) :=
  match db.find? (fun p => p.id == id) with
  | none => .error (404, "Project not found")
  | some existing =>
      let isOwner : Bool := u.userId == existing.userId
      let isAdmin : Bool := isAdminRole u.role
      if !isOwner && !isAdmin then
        .error (403, "Access denied")
      else
        .ok (db.filter (fun p => !(p.id == id)))

/-- register (authController), after zod validation and password hashing:
duplicate email is a 409, otherwise the created row has role USER and
status PENDING_VERIFICATION. newId is the store-generated id and hashed
the bcrypt digest. -/
def register (users : List DbUser) (email hashed : String)
    (firstName lastName : Option String) (newId : String) :
    Except (Nat × String) (DbUser × List DbUser) :=
  match users.find? (fun u => u.email == email) with
  | some _ => .error (409, "User already exists with this email")
  | none =>
      let user : DbUser :=
        { id := newId
          email := email
          passwordHash := hashed
          firstName := firstName
          lastName := lastName
          role := "USER"
          status := "PENDING_VERIFICATION" }
      .ok (user, users ++ [user])

/-- getProfile (authController): 401 without req.user, 404 when the id is
gone from the user table, otherwise the user row. -/
def getProfile (users : List DbUser) (reqUser : Option ReqUser) :
    Except (Nat × String) DbUser :=
  match reqUser with
  | none => .error (401, "User not authenticated")
  | some u =>
      match users.find? (fun du => du.id == u.userId) with
      | none => .error (404, "User not found")
      | some du => .ok du

/-- The verifyToken middleware composed with a controller: the request is
rejected with the middleware error before the controller runs. -/
def authedGetProjectById (adminUsers users : List UserRecord)
    (decoded : ReqUser) (db : List Project) (id : String) :
    Except (Nat × String) Project :=
  match verifyToken adminUsers users decoded with
  | .error e => .error e
  | .ok ru => getProjectById db (some ru) id

/-- verifyToken then createProject, as on the POST /projects route. -/
def authedCreateProject (adminUsers users : List UserRecord)
    (decoded : ReqUser) (db : List Project) (input : CreateInput)
    (newId : String) : Except (Nat × String) (Project × List Project) :=
  match verifyToken adminUsers users decoded with
  | .error e => .error e
  | .ok ru => createProject db ru input newId

/-- verifyToken then updateProject, as on the PUT /projects/:id route. -/
def authedUpdateProject (adminUsers users : List UserRecord)
    (decoded : ReqUser) (db : List Project) (id : String)
    (input : UpdateInput) : Except (Nat × String) (Project × List Project) :=
  match verifyToken adminUsers users decoded with
  | .error e => .error e
  | .ok ru => updateProject db ru id input

/-- verifyToken then deleteProject, as on the DELETE /projects/:id route. -/
def authedDeleteProject (adminUsers users : List UserRecord)
    (decoded : ReqUser) (db : List Project) (id : String) :
    Except (Nat × String) (List Project) :=
  match verifyToken adminUsers users decoded with
  | .error e => .error e
  | .ok ru => deleteProject db ru id

/-- verifyToken then getProfile, as on the GET /auth/profile route. -/
def authedGetProfile (adminUsers users : List UserRecord)
    (decoded : ReqUser) (dbUsers : List DbUser) :
    Except (Nat × String) DbUser :=
  match verifyToken adminUsers users decoded with
  | .error e => .error e
  | .ok ru => getProfile dbUsers (some ru)

/-- One per-IP entry of the in-process rate limit map:
\x7b count, resetTime \x7d, times in milliseconds. -/
structure ClientData where
  count : Nat
  resetTime : Nat
deriving Repr, DecidableEq

/-- One request through the rateLimit middleware for a single client IP:
given that IP's map entry (none when absent) and the current time, returns
whether the request is admitted (true) or answered 429 (false), and the
entry afterwards. A missing or expired entry (now strictly past resetTime)
starts a fresh window of count 1 expiring at now + windowMs; an in-window
request at count below maxRequests increments the counter; at or above
maxRequests it is rejected and the entry is unchanged. -/
def rateLimitStep (maxRequests windowMs : Nat) (st : Option ClientData)
    (now : Nat) : Bool × ClientData :=
  match st with
  | none => (true, { count := 1, resetTime := now + windowMs })
  | some cd =>
      if now > cd.resetTime then
        (true, { count := 1, resetTime := now + windowMs })
      else if cd.count ≥ maxRequests then
        (false, cd)
      else
        (true, { count := cd.count + 1, resetTime := cd.resetTime })

/-- A sequence of requests from one client IP at the given times: the list
of admit decisions and the final map entry. -/
def runRateLimit (maxRequests windowMs : Nat) (st : Option ClientData) :
    List Nat → List Bool × Option ClientData
  | [] => ([], st)
  | t :: ts =>
      let step := rateLimitStep maxRequests windowMs st t
      let rest := runRateLimit maxRequests windowMs (some step.2) ts
      (step.1 :: rest.1, rest.2)

/-! Concrete fixtures used by witnesses and counterexamples. -/

/-- A public, published project owned by u1. -/
def pubProject : Project :=
  { id := "p1", title := "Florka landing", description := some "a landing page"
    content := none, category := some "web", tags := [], isPublic := true
    status := "PUBLISHED", userId := "u1" }

/-- A private draft project owned by u1. -/
def privProject : Project :=
  { id := "p2", title := "Secret plan", description := none
    content := some "hidden", category := none, tags := [], isPublic := false
    status := "DRAFT", userId := "u1" }

/-- A two-project table: one public published, one private draft. -/
def demoDb : List Project := [pubProject, privProject]

/-- A list query with every parameter absent. -/
def emptyQuery : ListQuery :=
  { page := none, limit := none, search := none, category := none
    status := none }

/-- An update body with every field absent. -/
def emptyUpdate : UpdateInput :=
  { title := none, description := none, content := none, category := none
    tags := none, isPublic := none, status := none }

/-! ## Claim C1 -/

/-- Claim C1: an anonymous project list contains only projects with
isPublic = true and status PUBLISHED, and an anonymous read of a single
project by id succeeds exactly when that project is public and published,
and is denied with 403 otherwise. -/
theorem c1_anonymous_reads_only_public_published
    (db : List Project) (q : ListQuery) (id : String) :
    (∀ p ∈ (getAllProjects db none q).projects,
        p.isPublic = true ∧ p.status = "PUBLISHED") ∧
    (∀ p, db.find? (fun x => x.id == id) = some p →
        ((getProjectById db none id = .ok p) ↔
            (p.isPublic = true ∧ p.status = "PUBLISHED")) ∧
        (¬ (p.isPublic = true ∧ p.status = "PUBLISHED") →
            getProjectById db none id = .error (403, "Access denied"))) := by
  constructor
  · intro p hp
    simp only [getAllProjects] at hp
    have hmem := List.mem_of_mem_drop (List.mem_of_mem_take hp)
    have hm := (List.mem_filter.mp hmem).2
    simp only [matchesWhere, Bool.and_eq_true, Bool.or_eq_true,
      beq_iff_eq] at hm
    exact hm.1.1.1
  · intro p hfind
    cases hpub : (p.isPublic && p.status == "PUBLISHED") with
    | true =>
        have hres : getProjectById db none id = Except.ok p := by
          simp [getProjectById, hfind, hpub]
        have hp' : p.isPublic = true ∧ p.status = "PUBLISHED" := by
          simpa using hpub
        refine ⟨⟨fun _ => hp', fun _ => hres⟩, fun hc => absurd hp' hc⟩
    | false =>
        have hres : getProjectById db none id =
            Except.error (403, "Access denied") := by
          simp [getProjectById, hfind, hpub]
        have hp' : ¬ (p.isPublic = true ∧ p.status = "PUBLISHED") := by
          intro hc
          rw [hc.1, hc.2] at hpub
          simp at hpub
        refine ⟨⟨?_, fun h => absurd h hp'⟩, fun _ => hres⟩
        intro h
        rw [hres] at h
        exact Except.noConfusion h

/-- Witness for C1 at the demo table: the anonymous list over demoDb and
the anonymous read of the private draft p2, which is denied. -/
theorem c1_witness :
    (∀ p ∈ (getAllProjects demoDb none emptyQuery).projects,
        p.isPublic = true ∧ p.status = "PUBLISHED") ∧
    getProjectById demoDb none "p2" = .error (403, "Access denied") := by
  refine ⟨(c1_anonymous_reads_only_public_published demoDb emptyQuery "p2").1, ?_⟩
  exact ((c1_anonymous_reads_only_public_published demoDb emptyQuery "p2").2
    privProject (by decide)).2 (by decide)

/-! ## Claim C2 -/

/-- Claim C2: for an authenticated requester whose role is neither ADMIN
nor SUPER_ADMIN and an existing project, the read succeeds exactly when
the project is public and published or the requester owns it, update and
delete succeed exactly when the requester owns it, and each denied case
is a 403. -/
theorem c2_non_admin_owner_rules
    (db : List Project) (u : ReqUser) (id : String) (input : UpdateInput)
    (p : Project)
    (hrole : isAdminRole u.role = false)
    (hfind : db.find? (fun x => x.id == id) = some p)
    (hvalid : validUpdate input = true) :
    ((getProjectById db (some u) id = .ok p) ↔
        ((p.isPublic = true ∧ p.status = "PUBLISHED") ∨ u.userId = p.userId)) ∧
    (¬ ((p.isPublic = true ∧ p.status = "PUBLISHED") ∨ u.userId = p.userId) →
        getProjectById db (some u) id = .error (403, "Access denied")) ∧
    ((∃ r, updateProject db u id input = .ok r) ↔ u.userId = p.userId) ∧
    (u.userId ≠ p.userId →
        updateProject db u id input = .error (403, "Access denied")) ∧
    ((∃ r, deleteProject db u id = .ok r) ↔ u.userId = p.userId) ∧
    (u.userId ≠ p.userId →
        deleteProject db u id = .error (403, "Access denied")) := by
  cases howner : (u.userId == p.userId) with
  | true =>
      have howner' : u.userId = p.userId := by simpa using howner
      have hget : getProjectById db (some u) id = Except.ok p := by
        simp [getProjectById, hfind, howner]
      have hupd : ∃ r, updateProject db u id input = Except.ok r := by
        refine ⟨(applyUpdate p input,
          db.map (fun x => if x.id == id then applyUpdate x input else x)), ?_⟩
        simp [updateProject, hvalid, hfind, howner]
      have hdel : ∃ r, deleteProject db u id = Except.ok r := by
        refine ⟨db.filter (fun x => !(x.id == id)), ?_⟩
        simp [deleteProject, hfind, howner]
      exact ⟨⟨fun _ => Or.inr howner', fun _ => hget⟩,
        fun hc => absurd (Or.inr howner') hc,
        ⟨fun _ => howner', fun _ => hupd⟩,
        fun hc => absurd howner' hc,
        ⟨fun _ => howner', fun _ => hdel⟩,
        fun hc => absurd howner' hc⟩
  | false =>
      have howner' : ¬ u.userId = p.userId := by simpa using howner
      have hupd : updateProject db u id input =
          Except.error (403, "Access denied") := by
        simp [updateProject, hvalid, hfind, howner, hrole]
      have hdel : deleteProject db u id =
          Except.error (403, "Access denied") := by
        simp [deleteProject, hfind, howner, hrole]
      have hupdno : ¬ ∃ r, updateProject db u id input = Except.ok r := by
        rintro ⟨r, hr⟩
        rw [hupd] at hr
        exact Except.noConfusion hr
      have hdelno : ¬ ∃ r, deleteProject db u id = Except.ok r := by
        rintro ⟨r, hr⟩
        rw [hdel] at hr
        exact Except.noConfusion hr
      cases hpub : (p.isPublic && p.status == "PUBLISHED") with
      | true =>
          have hp' : p.isPublic = true ∧ p.status = "PUBLISHED" := by
            simpa using hpub
          have hget : getProjectById db (some u) id = Except.ok p := by
            simp [getProjectById, hfind, hpub]
          exact ⟨⟨fun _ => Or.inl hp', fun _ => hget⟩,
            fun hc => absurd (Or.inl hp') hc,
            ⟨fun h => absurd h hupdno, fun hc => absurd hc howner'⟩,
            fun _ => hupd,
            ⟨fun h => absurd h hdelno, fun hc => absurd hc howner'⟩,
            fun _ => hdel⟩
      | false =>
          have hp' : ¬ ((p.isPublic = true ∧ p.status = "PUBLISHED") ∨
              u.userId = p.userId) := by
            rintro (hc | hc)
            · rw [hc.1, hc.2] at hpub
              simp at hpub
            · exact howner' hc
          have hget : getProjectById db (some u) id =
              Except.error (403, "Access denied") := by
            simp [getProjectById, hfind, howner, hrole, hpub]
          refine ⟨⟨?_, fun h => absurd h hp'⟩, fun _ => hget,
            ⟨fun h => absurd h hupdno, fun hc => absurd hc howner'⟩,
            fun _ => hupd,
            ⟨fun h => absurd h hdelno, fun hc => absurd hc howner'⟩,
            fun _ => hdel⟩
          intro h
          rw [hget] at h
          exact Except.noConfusion h

/-- Witness for C2: user u2 (role USER) reading and updating the private
draft p2 of u1 over the demo table, both denied with 403. -/
theorem c2_witness :
    getProjectById demoDb (some ⟨"u2", "USER"⟩) "p2" =
      .error (403, "Access denied") ∧
    updateProject demoDb ⟨"u2", "USER"⟩ "p2" emptyUpdate =
      .error (403, "Access denied") := by
  have h := c2_non_admin_owner_rules demoDb ⟨"u2", "USER"⟩ "p2" emptyUpdate
    privProject (by decide) (by decide) (by decide)
  exact ⟨h.2.1 (by decide), h.2.2.2.1 (by decide)⟩

/-! ## Claim C3 -/

/-- An admin row whose status is PENDING_VERIFICATION, not ACTIVE. -/
def pendingAdmin : UserRecord :=
  { id := "a1", role := "ADMIN", status := "PENDING_VERIFICATION" }

/-- An admin row whose status is ACTIVE. -/
def activeAdmin : UserRecord :=
  { id := "a2", role := "ADMIN", status := "ACTIVE" }

/-- Counterexample to claim C3: the claim says the admin bypass is gated
only by the admin account status being ACTIVE and that an admin whose
status is not ACTIVE is not granted the bypass; but verifyToken also
accepts PENDING_VERIFICATION, so this admin, whose status is not ACTIVE,
passes token verification and updates and deletes a private draft it
does not own. -/
theorem c3_counterexample :
    pendingAdmin.status ≠ "ACTIVE" ∧
    (verifyToken [pendingAdmin] [] ⟨"a1", "ADMIN"⟩).isOk = true ∧
    privProject.userId ≠ "a1" ∧
    (authedUpdateProject [pendingAdmin] [] ⟨"a1", "ADMIN"⟩ demoDb "p2"
      emptyUpdate).isOk = true ∧
    (authedDeleteProject [pendingAdmin] [] ⟨"a1", "ADMIN"⟩ demoDb
      "p2").isOk = true := by
  decide

/-- Claim C3 as amended: for a requester with role ADMIN or SUPER_ADMIN,
read, update and delete succeed on every existing project regardless of
its ownership, visibility and status, and the bypass is gated by the
admin account status being ACTIVE or PENDING_VERIFICATION: any other
status is rejected at token verification. -/
theorem c3_admin_bypass_amended
    (adminUsers users : List UserRecord) (decoded : ReqUser)
    (a : UserRecord)
    (hrole : isAdminRole decoded.role = true)
    (hfind : adminUsers.find? (fun x => x.id == decoded.userId) = some a) :
    ((verifyToken adminUsers users decoded).isOk = true ↔
        (a.status = "ACTIVE" ∨ a.status = "PENDING_VERIFICATION")) ∧
    ((a.status = "ACTIVE" ∨ a.status = "PENDING_VERIFICATION") →
      ∀ (db : List Project) (id : String) (p : Project) (input : UpdateInput),
        db.find? (fun x => x.id == id) = some p →
        validUpdate input = true →
        authedGetProjectById adminUsers users decoded db id = .ok p ∧
        (∃ r, authedUpdateProject adminUsers users decoded db id input =
          .ok r) ∧
        (∃ r, authedDeleteProject adminUsers users decoded db id = .ok r)) := by
  have hlook : lookupUser adminUsers users decoded = some a := by
    simp [lookupUser, hrole, hfind]
  by_cases hok : a.status = "ACTIVE" ∨ a.status = "PENDING_VERIFICATION"
  · have hcond : (a.status != "ACTIVE" &&
        a.status != "PENDING_VERIFICATION") = false := by
      rcases hok with h | h <;> simp [h]
    have hv : verifyToken adminUsers users decoded =
        Except.ok { userId := decoded.userId, role := decoded.role } := by
      simp [verifyToken, hlook, hcond]
    refine ⟨⟨fun _ => hok, fun _ => by simp [hv, Except.isOk, Except.toBool]⟩, ?_⟩
    intro _ db id p input hfindp hvalid
    have hget : getProjectById db
        (some { userId := decoded.userId, role := decoded.role }) id =
        Except.ok p := by
      simp [getProjectById, hfindp, hrole]
    have hupd : updateProject db
        { userId := decoded.userId, role := decoded.role } id input =
        Except.ok (applyUpdate p input,
          db.map (fun x => if x.id == id then applyUpdate x input else x)) := by
      simp [updateProject, hvalid, hfindp, hrole]
    have hdel : deleteProject db
        { userId := decoded.userId, role := decoded.role } id =
        Except.ok (db.filter (fun x => !(x.id == id))) := by
      simp [deleteProject, hfindp, hrole]
    refine ⟨?_, ⟨(applyUpdate p input,
        db.map fun x => if x.id == id then applyUpdate x input else x), ?_⟩,
      ⟨db.filter fun x => !(x.id == id), ?_⟩⟩
    · simp only [authedGetProjectById, hv]
      exact hget
    · simp only [authedUpdateProject, hv]
      exact hupd
    · simp only [authedDeleteProject, hv]
      exact hdel
  · have hcond : (a.status != "ACTIVE" &&
        a.status != "PENDING_VERIFICATION") = true := by
      push_neg at hok
      simp [hok.1, hok.2]
    have hv : verifyToken adminUsers users decoded =
        Except.error (403, "User account is not active") := by
      simp [verifyToken, hlook, hcond]
    exact ⟨⟨fun h => absurd h (by simp [hv, Except.isOk, Except.toBool]),
      fun h => absurd h hok⟩, fun h => absurd h hok⟩

/-- Witness for the amended C3: an ACTIVE admin reads, updates and deletes
the private draft p2 owned by u1. -/
theorem c3_witness :
    authedGetProjectById [activeAdmin] [] ⟨"a2", "ADMIN"⟩ demoDb "p2" =
      .ok privProject := by
  have h := c3_admin_bypass_amended [activeAdmin] [] ⟨"a2", "ADMIN"⟩
    activeAdmin (by decide) (by decide)
  exact (h.2 (Or.inl (by decide)) demoDb "p2" privProject emptyUpdate
    (by decide) (by decide)).1

/-! ## Claim C4 -/

/-- Claim C4: a requester whose account status is SUSPENDED or INACTIVE
is denied by verifyToken itself with a 403, whatever the role, so every
operation behind verifyToken returns that same middleware error for every
table, id and body, before any controller ownership or visibility
decision; optionalAuth likewise refuses to attach the identity. -/
theorem c4_suspended_inactive_denied_at_verification
    (adminUsers users : List UserRecord) (decoded : ReqUser)
    (u : UserRecord)
    (hstat : u.status = "SUSPENDED" ∨ u.status = "INACTIVE")
    (hlook : lookupUser adminUsers users decoded = some u) :
    verifyToken adminUsers users decoded =
      .error (403, "User account is not active") ∧
    (∀ (db : List Project) (id newId : String) (input : UpdateInput)
        (cin : CreateInput) (dbUsers : List DbUser),
      authedGetProjectById adminUsers users decoded db id =
        .error (403, "User account is not active") ∧
      authedCreateProject adminUsers users decoded db cin newId =
        .error (403, "User account is not active") ∧
      authedUpdateProject adminUsers users decoded db id input =
        .error (403, "User account is not active") ∧
      authedDeleteProject adminUsers users decoded db id =
        .error (403, "User account is not active") ∧
      authedGetProfile adminUsers users decoded dbUsers =
        .error (403, "User account is not active")) ∧
    optionalAuth adminUsers users (some decoded) = none := by
  have hcond : (u.status != "ACTIVE" &&
      u.status != "PENDING_VERIFICATION") = true := by
    rcases hstat with h | h <;> rw [h] <;> decide
  have hcond2 : (u.status == "ACTIVE" ||
      u.status == "PENDING_VERIFICATION") = false := by
    rcases hstat with h | h <;> rw [h] <;> decide
  have hv : verifyToken adminUsers users decoded =
      Except.error (403, "User account is not active") := by
    simp [verifyToken, hlook, hcond]
  refine ⟨hv, ?_, by simp [optionalAuth, hlook, hcond2]⟩
  intro db id newId input cin dbUsers
  exact ⟨by simp [authedGetProjectById, hv],
    by simp [authedCreateProject, hv],
    by simp [authedUpdateProject, hv],
    by simp [authedDeleteProject, hv],
    by simp [authedGetProfile, hv]⟩

/-- Witness for C4: a suspended USER account is rejected by verifyToken
and its delete request never reaches the controller: the response is the
middleware 403, not a controller ownership answer, even on its own
project table. -/
theorem c4_witness :
    verifyToken [] [⟨"u9", "USER", "SUSPENDED"⟩] ⟨"u9", "USER"⟩ =
      .error (403, "User account is not active") ∧
    authedDeleteProject [] [⟨"u9", "USER", "SUSPENDED"⟩] ⟨"u9", "USER"⟩
      demoDb "p2" = .error (403, "User account is not active") ∧
    optionalAuth [] [⟨"u9", "USER", "SUSPENDED"⟩] (some ⟨"u9", "USER"⟩) =
      none := by
  have h := c4_suspended_inactive_denied_at_verification []
    [⟨"u9", "USER", "SUSPENDED"⟩] ⟨"u9", "USER"⟩
    ⟨"u9", "USER", "SUSPENDED"⟩ (Or.inl (by decide)) (by decide)
  exact ⟨h.1, (h.2.1 demoDb "p2" "n1" emptyUpdate
    ⟨"t", none, none, none, none, none, none⟩ []).2.2.2.1, h.2.2⟩

/-! ## Claim C5 -/

/-- A table of 101 public published rows. -/
def manyPubProjects : List Project := List.replicate 101 pubProject

/-- Counterexample to claim C5: the controller reads limit through
parseInt with a JavaScript or-fallback and never clamps it, so a
requested limit of 1000 stays 1000 (the claim says any limit above 100
is reduced to 100) and an anonymous list over a 101-row public table
returns all 101 rows, more than the claimed 100-row cap. -/
theorem c5_counterexample :
    (getAllProjects manyPubProjects none
      { page := none, limit := some 1000, search := none, category := none
        status := none }).limit = 1000 ∧
    (getAllProjects manyPubProjects none
      { page := none, limit := some 1000, search := none, category := none
        status := none }).projects.length = 101 := by
  decide

/-- Claim C5 as amended: the effective limit is the requested value with
default 10 when the parameter is absent, non-numeric or zero, and is not
clamped; a page beyond the total number of pages returns an empty list,
not an error. -/
theorem c5_pagination_amended
    (db : List Project) (ru : Option ReqUser) (q : ListQuery) (l p : Nat)
    (hl : q.limit = some (l : Int)) (hp : q.page = some (p : Int))
    (hl0 : 0 < l) (hp0 : 0 < p)
    (hbeyond : pagesCeil (db.filter (matchesWhere ru q)).length l < p) :
    (getAllProjects db ru q).limit = (l : Int) ∧
    (getAllProjects db ru q).projects = [] := by
  have hlne : ((l : Int)) ≠ 0 := by exact_mod_cast hl0.ne'
  have hpne : ((p : Int)) ≠ 0 := by exact_mod_cast hp0.ne'
  have hlimit : jsOrInt q.limit 10 = (l : Int) := by
    rw [hl]; simp [jsOrInt, hlne]
  have hpage : jsOrInt q.page 1 = (p : Int) := by
    rw [hp]; simp [jsOrInt, hpne]
  have hskip : (db.filter (matchesWhere ru q)).length ≤ (p - 1) * l := by
    by_contra hcon
    push_neg at hcon
    have hp1 : (p - 1) * l = p * l - l := by rw [Nat.sub_one_mul]
    have hll : l ≤ p * l := Nat.le_mul_of_pos_left l hp0
    have h1 : p * l ≤ (db.filter (matchesWhere ru q)).length + l - 1 := by
      omega
    have h2 : p ≤ ((db.filter (matchesWhere ru q)).length + l - 1) / l :=
      (Nat.le_div_iff_mul_le hl0).mpr h1
    unfold pagesCeil at hbeyond
    omega
  have hskipNat : (((p : Int) - 1) * (l : Int)).toNat = (p - 1) * l := by
    have hcast : ((p : Int) - 1) * (l : Int) = (((p - 1) * l : Nat) : Int) := by
      push_cast [Nat.cast_sub hp0]
      ring
    rw [hcast, Int.toNat_natCast]
  have hdrop : (db.filter (matchesWhere ru q)).drop ((p - 1) * l) = [] :=
    List.drop_eq_nil_of_le hskip
  constructor
  · simp [getAllProjects, hlimit]
  · simp [getAllProjects, hlimit, hpage, hskipNat, hdrop]

/-- Witness for the amended C5: over the two-project demo table an
anonymous request for page 5 with limit 10 gets an empty list, and the
echoed limit is the requested 10. -/
theorem c5_witness :
    (getAllProjects demoDb none
      { page := some 5, limit := some 10, search := none, category := none
        status := none }).limit = 10 ∧
    (getAllProjects demoDb none
      { page := some 5, limit := some 10, search := none, category := none
        status := none }).projects = [] := by
  have h := c5_pagination_amended demoDb none
    { page := some 5, limit := some 10, search := none, category := none
      status := none } 10 5 (by decide) (by decide) (by decide) (by decide)
    (by decide)
  exact ⟨h.1, h.2⟩

/-! ## Claim C6 -/

/-- Counterexample to claim C6: the claim says every result row satisfies
every filter the requester supplied, but for an anonymous request the
controller applies the status filter only when authenticated, so an
anonymous list with status filter DRAFT still returns the published
project p1, whose status is not DRAFT. -/
theorem c6_counterexample :
    pubProject ∈ (getAllProjects demoDb none
      { page := none, limit := none, search := none, category := none
        status := some "DRAFT" }).projects ∧
    pubProject.status ≠ "DRAFT" := by
  decide

/-- Claim C6 as amended: filters combine with AND and the access rule is
ANDed with them, never overridden: every row of an authenticated list
satisfies the access rule (public and published, or owned) and each
supplied search, category and status filter; every row of an anonymous
list satisfies the anonymous access rule (public and published) and each
supplied search and category filter, the status filter being applied
only to authenticated requests. -/
theorem c6_filters_and_access_amended
    (db : List Project) (q : ListQuery) (u : ReqUser) :
    (∀ p ∈ (getAllProjects db (some u) q).projects,
      ((p.isPublic = true ∧ p.status = "PUBLISHED") ∨ p.userId = u.userId) ∧
      (∀ s, strTruthy q.search = some s →
        (containsCI p.title s = true ∨
          ∃ d, p.description = some d ∧ containsCI d s = true)) ∧
      (∀ c, strTruthy q.category = some c → p.category = some c) ∧
      (∀ st, strTruthy q.status = some st → p.status = st)) ∧
    (∀ p ∈ (getAllProjects db none q).projects,
      (p.isPublic = true ∧ p.status = "PUBLISHED") ∧
      (∀ s, strTruthy q.search = some s →
        (containsCI p.title s = true ∨
          ∃ d, p.description = some d ∧ containsCI d s = true)) ∧
      (∀ c, strTruthy q.category = some c → p.category = some c)) := by
  constructor
  · intro p hp
    simp only [getAllProjects] at hp
    have hmem := List.mem_of_mem_drop (List.mem_of_mem_take hp)
    have hm := (List.mem_filter.mp hmem).2
    simp only [matchesWhere, Bool.and_eq_true] at hm
    obtain ⟨⟨⟨hacc, hsearch⟩, hcat⟩, hstat⟩ := hm
    refine ⟨?_, ?_, ?_, ?_⟩
    · simpa using hacc
    · intro s hs
      simp only [hs] at hsearch
      rcases Bool.or_eq_true_iff.mp hsearch with h | h
      · exact Or.inl h
      · cases hd : p.description with
        | none =>
            rw [hd] at h
            exact absurd h (by simp)
        | some d =>
            rw [hd] at h
            exact Or.inr ⟨d, rfl, h⟩
    · intro c hc
      simp only [hc] at hcat
      simpa using hcat
    · intro st hst
      simp only [hst] at hstat
      simpa using hstat
  · intro p hp
    simp only [getAllProjects] at hp
    have hmem := List.mem_of_mem_drop (List.mem_of_mem_take hp)
    have hm := (List.mem_filter.mp hmem).2
    simp only [matchesWhere, Bool.and_eq_true] at hm
    obtain ⟨⟨⟨hacc, hsearch⟩, hcat⟩, _⟩ := hm
    refine ⟨by simpa using hacc, ?_, ?_⟩
    · intro s hs
      simp only [hs] at hsearch
      rcases Bool.or_eq_true_iff.mp hsearch with h | h
      · exact Or.inl h
      · cases hd : p.description with
        | none =>
            rw [hd] at h
            exact absurd h (by simp)
        | some d =>
            rw [hd] at h
            exact Or.inr ⟨d, rfl, h⟩
    · intro c hc
      simp only [hc] at hcat
      simpa using hcat

/-- Witness for the amended C6: from the anonymous conjunct at the demo
table with a search filter, the returned row p1 is public and published. -/
theorem c6_witness :
    pubProject.isPublic = true ∧ pubProject.status = "PUBLISHED" :=
  ((c6_filters_and_access_amended demoDb
      { page := none, limit := none, search := some "landing"
        category := none, status := none } ⟨"u1", "USER"⟩).2
    pubProject (by decide)).1

/-! ## Claim C7 -/

/-- A run of in-window requests: starting from a map entry with count c
(between 1 and the maximum) and reset time r, requests at times not past
r are admitted while the running count stays below maxRequests and are
rejected afterwards, and the reset time never moves. -/
theorem runRateLimit_in_window (N W r : Nat) (ts : List Nat) :
    ∀ c : Nat, 0 < c → c ≤ N → (∀ t ∈ ts, t ≤ r) →
    runRateLimit N W (some ⟨c, r⟩) ts =
      ((List.range ts.length).map (fun i => decide (c + i < N)),
        some ⟨min (c + ts.length) N, r⟩) := by
  induction ts with
  | nil =>
      intro c _ hcN _
      simp only [runRateLimit, List.length_nil, List.range_zero,
        List.map_nil]
      rw [show min (c + 0) N = c from by omega]
  | cons t ts ih =>
      intro c hc hcN h
      have ht : ¬ t > r := Nat.not_lt.mpr (h t (List.mem_cons_self t ts))
      have hrest : ∀ x ∈ ts, x ≤ r := fun x hx => h x (List.mem_cons_of_mem t hx)
      by_cases hlt : c < N
      · have hstep : rateLimitStep N W (some ⟨c, r⟩) t =
            (true, ⟨c + 1, r⟩) := by
          simp [rateLimitStep, ht, Nat.not_le.mpr hlt]
        simp only [runRateLimit, hstep]
        rw [ih (c + 1) (Nat.succ_pos c) hlt hrest]
        have hmap : (List.range (ts.length + 1)).map
            (fun i => decide (c + i < N)) =
            true :: (List.range ts.length).map
              (fun i => decide (c + 1 + i < N)) := by
          simp only [List.range_succ_eq_map, List.map_cons, List.map_map,
            List.cons.injEq]
          exact ⟨by simp [hlt], List.map_congr_left
            (fun i _ => decide_eq_decide.mpr (by omega))⟩
        simp only [List.length_cons, hmap]
        rw [show min (c + 1 + ts.length) N = min (c + (ts.length + 1)) N
          from by omega]
      · have hstep : rateLimitStep N W (some ⟨c, r⟩) t = (false, ⟨c, r⟩) := by
          simp [rateLimitStep, ht, Nat.not_lt.mp hlt]
        simp only [runRateLimit, hstep]
        rw [ih c hc hcN hrest]
        have hmap : (List.range (ts.length + 1)).map
            (fun i => decide (c + i < N)) =
            false :: (List.range ts.length).map
              (fun i => decide (c + i < N)) := by
          simp only [List.range_succ_eq_map, List.map_cons, List.map_map,
            List.cons.injEq]
          exact ⟨by simp [hlt], List.map_congr_left
            (fun i _ => decide_eq_decide.mpr (by omega))⟩
        simp only [List.length_cons, hmap]
        rw [show min (c + ts.length) N = min (c + (ts.length + 1)) N
          from by omega]

/-- Counterexample to claim C7: with the login limit of 3 per 100 ms the
requests at times 0, 1 and 2 fill the window whose reset time is 0 + 100,
and the next request at time exactly 100, when the claimed W ms have
elapsed since the first request, does not start a fresh window and is
not admitted: the reset test of the source is strictly now greater than
resetTime, so the request is rejected with the 429 path. -/
theorem c7_counterexample :
    runRateLimit 3 100 none [0, 1, 2, 100] =
      ([true, true, true, false], some ⟨3, 100⟩) := by
  decide

/-- Claim C7 as amended: the rate limiter is a fixed-window counter per
client IP: from an empty entry, the first request at time t0 opens a
window with reset time t0 + W, and among requests at times up to t0 + W
the i-th request overall (0-based) is admitted exactly when i is below N,
so at most N requests are admitted and every later in-window request is
rejected with the 429 path whatever its content (the decision reads no
request body); the window resets only once strictly more than W ms have
elapsed since the first request: any request at a time strictly past the
reset time is admitted and opens a fresh window of count 1. -/
theorem c7_fixed_window_amended (N W t0 : Nat) (ts : List Nat)
    (hN : 0 < N) (hts : ∀ t ∈ ts, t ≤ t0 + W) (c r now : Nat)
    (hnow : r < now) :
    runRateLimit N W none (t0 :: ts) =
      ((List.range (ts.length + 1)).map (fun i => decide (i < N)),
        some ⟨min (ts.length + 1) N, t0 + W⟩) ∧
    rateLimitStep N W (some ⟨c, r⟩) now = (true, ⟨1, now + W⟩) := by
  constructor
  · have hfirst : rateLimitStep N W none t0 =
        (true, ⟨1, t0 + W⟩) := rfl
    simp only [runRateLimit, hfirst]
    rw [runRateLimit_in_window N W (t0 + W) ts 1 Nat.one_pos hN hts]
    have hmap : (List.range (ts.length + 1)).map (fun i => decide (i < N)) =
        true :: (List.range ts.length).map (fun i => decide (1 + i < N)) := by
      simp only [List.range_succ_eq_map, List.map_cons, List.map_map,
        List.cons.injEq]
      exact ⟨by simp [hN], List.map_congr_left
        (fun i _ => decide_eq_decide.mpr (by omega))⟩
    simp only [hmap]
    rw [show min (1 + ts.length) N = min (ts.length + 1) N from by omega]
  · simp [rateLimitStep, hnow]

/-- Witness for the amended C7: the login limit 3 per 100 ms at request
times 0, 1, 2, 50: the fourth in-window attempt is rejected; and a
request at time 101 against the filled window entry starts a fresh
window and is admitted. -/
theorem c7_witness :
    runRateLimit 3 100 none [0, 1, 2, 50] =
      ([true, true, true, false], some ⟨3, 100⟩) ∧
    rateLimitStep 3 100 (some ⟨3, 100⟩) 101 = (true, ⟨1, 201⟩) := by
  have h := c7_fixed_window_amended 3 100 0 [1, 2, 50] (by decide)
    (by decide) 3 100 101 (by decide)
  exact ⟨by rw [h.1]; decide, h.2⟩

/-! ## Claim C8 -/

/-- Claim C8: updates cannot change ownership: the update schema admits
no owner field, so a successful update returns a project with the same
userId (and id) as the stored row, every field absent from the body keeps
its previous value, and no row of the resulting table has its owner
changed. -/
theorem c8_update_preserves_owner_and_absent_fields
    (db : List Project) (u : ReqUser) (id : String) (input : UpdateInput)
    (p p' : Project) (db' : List Project)
    (hfind : db.find? (fun x => x.id == id) = some p)
    (hok : updateProject db u id input = .ok (p', db')) :
    p'.userId = p.userId ∧
    p'.id = p.id ∧
    (input.title = none → p'.title = p.title) ∧
    (input.description = none → p'.description = p.description) ∧
    (input.content = none → p'.content = p.content) ∧
    (input.category = none → p'.category = p.category) ∧
    (input.tags = none → p'.tags = p.tags) ∧
    (input.isPublic = none → p'.isPublic = p.isPublic) ∧
    (input.status = none → p'.status = p.status) ∧
    db'.map Project.userId = db.map Project.userId := by
  unfold updateProject at hok
  cases hval : validUpdate input with
  | false =>
      rw [hval] at hok
      simp at hok
  | true =>
      rw [hval] at hok
      simp only [hfind] at hok
      cases hperm : (!(u.userId == p.userId) && !(isAdminRole u.role)) with
      | true =>
          rw [hperm] at hok
          simp at hok
      | false =>
          rw [hperm] at hok
          simp only [Bool.false_eq_true, Bool.true_eq_false, if_false,
            Except.ok.injEq, Prod.mk.injEq] at hok
          obtain ⟨hp', hdb'⟩ := hok
          subst hp'
          subst hdb'
          refine ⟨by simp [applyUpdate], by simp [applyUpdate],
            fun h => by simp [applyUpdate, h],
            fun h => by simp [applyUpdate, h],
            fun h => by simp [applyUpdate, h],
            fun h => by simp [applyUpdate, h],
            fun h => by simp [applyUpdate, h],
            fun h => by simp [applyUpdate, h],
            fun h => by simp [applyUpdate, h], ?_⟩
          rw [List.map_map]
          apply List.map_congr_left
          intro x _
          simp only [Function.comp_apply, applyUpdate]
          split <;> rfl

/-- The update body carrying only a new title. -/
def titleOnlyUpdate : UpdateInput :=
  { title := some "Renamed plan", description := none, content := none
    category := none, tags := none, isPublic := none, status := none }

/-- Witness for C8: the owner u1 renames the private draft p2; the
updated project keeps its owner and its previous status. -/
theorem c8_witness :
    (applyUpdate privProject titleOnlyUpdate).userId = privProject.userId ∧
    (applyUpdate privProject titleOnlyUpdate).status = privProject.status := by
  have h := c8_update_preserves_owner_and_absent_fields demoDb ⟨"u1", "USER"⟩
    "p2" titleOnlyUpdate privProject (applyUpdate privProject titleOnlyUpdate)
    (demoDb.map fun x : Project =>
      if x.id == "p2" then applyUpdate x titleOnlyUpdate else x)
    (by decide) rfl
  exact ⟨h.1, h.2.2.2.2.2.2.2.2.1 rfl⟩

/-! ## Claim C9 -/

/-- Claim C9: deleting an id that is not in the table is a 404 (and the
controller performs no write on that path, so the table is untouched);
consequently a successful delete followed by the same delete answers 404
the second time: the id is gone from the resulting table. -/
theorem c9_delete_repeat_404
    (db db' : List Project) (u u' : ReqUser) (id : String) :
    (db.find? (fun p => p.id == id) = none →
      deleteProject db u id = .error (404, "Project not found")) ∧
    (deleteProject db u id = .ok db' →
      db'.find? (fun p => p.id == id) = none ∧
      deleteProject db' u' id = .error (404, "Project not found")) := by
  constructor
  · intro h
    simp [deleteProject, h]
  · intro hok
    unfold deleteProject at hok
    cases hfind : db.find? (fun p => p.id == id) with
    | none =>
        rw [hfind] at hok
        simp at hok
    | some p =>
        simp only [hfind] at hok
        cases hperm : (!(u.userId == p.userId) && !(isAdminRole u.role)) with
        | true =>
            rw [hperm] at hok
            simp at hok
        | false =>
            rw [hperm] at hok
            simp only [Bool.false_eq_true, if_false, Except.ok.injEq] at hok
            subst hok
            have hgone : (db.filter (fun p => !(p.id == id))).find?
                (fun p => p.id == id) = none := by
              rw [List.find?_eq_none]
              intro x hx
              have hxf := (List.mem_filter.mp hx).2
              simp only [Bool.not_eq_true'] at hxf
              simp [hxf]
            exact ⟨hgone, by simp [deleteProject, hgone]⟩

/-- Witness for C9: user u2 deleting the absent id p2 from a one-row
table gets 404, and after the owner u1 deletes p2 from the demo table a
repeat of the same delete gets 404. -/
theorem c9_witness :
    deleteProject [pubProject] ⟨"u2", "USER"⟩ "p2" =
      .error (404, "Project not found") ∧
    deleteProject (demoDb.filter fun p => !(p.id == "p2")) ⟨"u1", "USER"⟩
      "p2" = .error (404, "Project not found") := by
  have h1 := (c9_delete_repeat_404 [pubProject] [] ⟨"u2", "USER"⟩
    ⟨"u2", "USER"⟩ "p2").1 (by decide)
  have h2 := (c9_delete_repeat_404 demoDb
    (demoDb.filter fun p => !(p.id == "p2")) ⟨"u1", "USER"⟩
    ⟨"u1", "USER"⟩ "p2").2 rfl
  exact ⟨h1, h2.2⟩

/-! ## Claim C10 -/

/-- Appending a fresh element: a search that rejects every element of the
old list finds the appended one. -/
theorem find?_append_fresh {α : Type} (p : α → Bool) (l : List α) (a : α)
    (hl : ∀ x ∈ l, p x = false) (ha : p a = true) :
    (l ++ [a]).find? p = some a := by
  induction l with
  | nil => simp [List.find?, ha]
  | cons b t ih =>
      have hb := hl b (List.mem_cons_self b t)
      simp only [List.cons_append, List.find?_cons, hb]
      exact ih fun x hx => hl x (List.mem_cons_of_mem b hx)

/-- The middleware lookup for a USER-role token of a freshly appended
user row: the non-admin role dispatches to the user table, where the
fresh id is found as the appended record. -/
theorem lookupUser_fresh_user (adminRecs : List UserRecord)
    (users : List DbUser) (nu : DbUser) (newId : String)
    (hfresh : ∀ x ∈ users, (x.id == newId) = false) (hid : nu.id = newId) :
    lookupUser adminRecs ((users ++ [nu]).map DbUser.record)
      ⟨newId, "USER"⟩ = some (DbUser.record nu) := by
  simp only [lookupUser,
    show isAdminRole (ReqUser.mk newId "USER").role = false from rfl,
    Bool.false_eq_true, if_false]
  rw [List.map_append, List.map_cons, List.map_nil]
  refine find?_append_fresh _ _ _ ?_ (by simp [DbUser.record, hid])
  intro x hx
  obtain ⟨y, hy, rfl⟩ := List.mem_map.mp hx
  simpa [DbUser.record] using hfresh y hy

/-- verifyToken accepts the freshly registered PENDING_VERIFICATION user
and attaches its token payload. -/
theorem verifyToken_fresh_user (adminRecs : List UserRecord)
    (users : List DbUser) (nu : DbUser) (newId : String)
    (hfresh : ∀ x ∈ users, (x.id == newId) = false) (hid : nu.id = newId)
    (hstatus : nu.status = "PENDING_VERIFICATION") :
    verifyToken adminRecs ((users ++ [nu]).map DbUser.record)
      ⟨newId, "USER"⟩ = .ok ⟨newId, "USER"⟩ := by
  have hcond : ((DbUser.record nu).status != "ACTIVE" &&
      (DbUser.record nu).status != "PENDING_VERIFICATION") = false := by
    simp only [DbUser.record]
    rw [hstatus]
    decide
  simp only [verifyToken,
    lookupUser_fresh_user adminRecs users nu newId hfresh hid, hcond,
    Bool.false_eq_true, if_false]

/-- Claim C10: a fresh registration creates an account with role USER
and status PENDING_VERIFICATION, token verification accepts that status,
and with no verification step in between every authenticated operation
is available to it: profile read, project creation, and update and
delete of any project it owns. -/
theorem c10_pending_verification_fully_usable
    (users : List DbUser) (adminRecs : List UserRecord)
    (email hashed newId : String) (firstName lastName : Option String)
    (hemail : users.find? (fun x => x.email == email) = none)
    (hfresh : ∀ x ∈ users, (x.id == newId) = false) :
    ∃ nu users',
      register users email hashed firstName lastName newId = .ok (nu, users') ∧
      nu.status = "PENDING_VERIFICATION" ∧
      nu.role = "USER" ∧
      verifyToken adminRecs (users'.map DbUser.record) ⟨newId, "USER"⟩ =
        .ok ⟨newId, "USER"⟩ ∧
      authedGetProfile adminRecs (users'.map DbUser.record) ⟨newId, "USER"⟩
        users' = .ok nu ∧
      (∀ (db : List Project) (cin : CreateInput) (pid : String),
        validCreate cin = true →
        ∃ r, authedCreateProject adminRecs (users'.map DbUser.record)
          ⟨newId, "USER"⟩ db cin pid = .ok r) ∧
      (∀ (db : List Project) (id : String) (q : Project) (input : UpdateInput),
        db.find? (fun x => x.id == id) = some q → q.userId = newId →
        validUpdate input = true →
        (∃ r, authedUpdateProject adminRecs (users'.map DbUser.record)
          ⟨newId, "USER"⟩ db id input = .ok r) ∧
        (∃ r, authedDeleteProject adminRecs (users'.map DbUser.record)
          ⟨newId, "USER"⟩ db id = .ok r)) := by
  refine ⟨⟨newId, email, hashed, firstName, lastName, "USER",
      "PENDING_VERIFICATION"⟩,
    users ++ [⟨newId, email, hashed, firstName, lastName, "USER",
      "PENDING_VERIFICATION"⟩], ?_, rfl, rfl, ?_, ?_, ?_, ?_⟩
  all_goals have hv := (verifyToken_fresh_user adminRecs users
    ⟨newId, email, hashed, firstName, lastName, "USER",
      "PENDING_VERIFICATION"⟩ newId hfresh rfl rfl)
  · simp [register, hemail]
  · exact hv
  · have hfind2 := find?_append_fresh (fun du : DbUser => du.id == newId)
      users ⟨newId, email, hashed, firstName, lastName, "USER",
        "PENDING_VERIFICATION"⟩ hfresh (by simp)
    simp only [authedGetProfile, hv]
    simp [getProfile, hfind2]
  · intro db cin pid hvalid
    refine ⟨(⟨pid, cin.title, cin.description, cin.content, cin.category,
        cin.tags.getD [], cin.isPublic.getD false, cin.status.getD "DRAFT",
        newId⟩,
      db ++ [⟨pid, cin.title, cin.description, cin.content, cin.category,
        cin.tags.getD [], cin.isPublic.getD false, cin.status.getD "DRAFT",
        newId⟩]), ?_⟩
    simp only [authedCreateProject, hv]
    simp [createProject, hvalid]
  · intro db id q input hfindq hq hvalid
    have howner : (newId == q.userId) = true := by simp [hq]
    constructor
    · refine ⟨(applyUpdate q input,
        db.map fun x : Project =>
          if x.id == id then applyUpdate x input else x), ?_⟩
      simp only [authedUpdateProject, hv]
      simp [updateProject, hvalid, hfindq, howner]
    · refine ⟨db.filter fun x : Project => !(x.id == id), ?_⟩
      simp only [authedDeleteProject, hv]
      simp [deleteProject, hfindq, howner]

/-- Witness for C10: registering a fresh account in an empty store
yields a PENDING_VERIFICATION account that verifyToken accepts. -/
theorem c10_witness :
    ∃ nu users',
      register [] "a@x.com" "hashedpw" none none "u1" = .ok (nu, users') ∧
      nu.status = "PENDING_VERIFICATION" ∧
      verifyToken [] (users'.map DbUser.record) ⟨"u1", "USER"⟩ =
        .ok ⟨"u1", "USER"⟩ := by
  obtain ⟨nu, users', hreg, hstat, _, hv, _⟩ :=
    c10_pending_verification_fully_usable [] [] "a@x.com" "hashedpw" "u1"
      none none (by decide) (by decide)
  exact ⟨nu, users', hreg, hstat, hv⟩

end Florka
